import Mathlib

/-!
Shallow embedding of the TTL collection library (package gocollections,
src/main.go): the entry wrapper `expiredElement`, the list container
`timeExpiredList` and the map container `timeExpiredMap`, their operations,
the sweep (`removeExpired`) and the bounded expired-element channel.

Instants (`time.Time`) and durations (`time.Duration`) are modelled as `Int`;
`t.Before(u)` is `t < u` and `t.After(u)` is `u < t`.  Every operation takes
the instant `now` at which its `time.Now()` calls are evaluated.  Go's
runtime panic on an out-of-range slice index is the `crash` outcome.
-/

namespace GoCollections

/-- Entry wrapper `expiredElement[V]`: a value and its absolute expiry instant
(main.go lines 15-18). -/
structure ExpiredElement (V : Type) where
  data : V
  expiredAt : Int
deriving DecidableEq, Repr

/-- The three sentinel errors of main.go lines 9-13. -/
inductive GoErr where
  | keyNotFound
  | indexOutOfBound
  | expired
deriving DecidableEq, Repr

/-- Outcome of `Get(i) (V, error)` on the list: a value, a sentinel error, or a
runtime panic from an out-of-range slice index. -/
inductive GetOut (V : Type) where
  | ok (v : V)
  | err (e : GoErr)
  | crash
deriving DecidableEq, Repr

/-- The test `e.expiredAt.Before(now)` used by Get, GetAll, Contains, map Get
and map removeExpired. -/
def expiredBefore (e : ExpiredElement V) (now : Int) : Bool :=
  decide (e.expiredAt < now)

/-- The test `e.expiredAt.After(now)` used by both Size methods and by the
list removeExpired. -/
def liveAfter (e : ExpiredElement V) (now : Int) : Bool :=
  decide (now < e.expiredAt)

/-!  Time Expired List.  The backing storage `l.data` is a `List (ExpiredElement V)`. -/

/-- List `Add` (main.go lines 85-89): append an entry expiring at `now + dur`
at the tail. -/
def listAdd (data : List (ExpiredElement V)) (value : V) (now dur : Int) :
    List (ExpiredElement V) :=
  data ++ [{ expiredAt := now + dur, data := value }]

/-- List `Get` (main.go lines 92-104).  The bounds guard is transcribed exactly
as written in the source, `i < 0 && i >= len(l.data)`; when it does not fire
and `i` is still outside `[0, len)`, the slice access `l.data[i]` panics,
which is the `crash` branch. -/
def listGet (data : List (ExpiredElement V)) (i : Int) (now : Int) : GetOut V :=
  if i < 0 ∧ (data.length : Int) ≤ i then GetOut.err GoErr.indexOutOfBound
  else if 0 ≤ i ∧ i < (data.length : Int) then
    match data[i.toNat]? with
    | some e => if expiredBefore e now then GetOut.err GoErr.expired else GetOut.ok e.data
    | none => GetOut.crash
  else GetOut.crash

/-- List `GetAll` (main.go lines 107-119): values of all entries that are not
expired, in storage order. -/
def listGetAll (data : List (ExpiredElement V)) (now : Int) : List V :=
  data.filterMap (fun v => if expiredBefore v now then none else some v.data)

/-- List `Del` (main.go lines 122-131): bounds-checked removal,
`append(l.data[:i], l.data[i+1:]...)`. -/
def listDel (data : List (ExpiredElement V)) (i : Int) :
    Except GoErr (List (ExpiredElement V)) :=
  if i < 0 ∨ (data.length : Int) ≤ i then Except.error GoErr.indexOutOfBound
  else Except.ok (data.take i.toNat ++ data.drop (i.toNat + 1))

/-- List `Size` (main.go lines 134-145): counts entries with
`e.expiredAt.After(now)`. -/
def listSize (data : List (ExpiredElement V)) (now : Int) : Nat :=
  data.countP (fun e => liveAfter e now)

/-- One push of an expired entry onto the expired-element channel
(main.go lines 192-199): only when the capacity is positive; if the buffer is
full, receive (drop) the oldest element first, then send.  `size` is
`config.ExpiredElChanSize`, which is also the channel capacity. -/
def chanPush (size : Nat) (ch : List (ExpiredElement V)) (e : ExpiredElement V) :
    List (ExpiredElement V) :=
  if 0 < size then
    (if size ≤ ch.length then ch.tail else ch) ++ [e]
  else ch

/-- Folding `chanPush` over a list of dropped entries, in drop order. -/
def chanPushAll (size : Nat) (ch : List (ExpiredElement V))
    (es : List (ExpiredElement V)) : List (ExpiredElement V) :=
  es.foldl (chanPush size) ch

/-- One iteration of the loop body of the list `removeExpired`
(main.go lines 186-201): a live entry is re-appended to the new slice, an
expired one is pushed to the channel. -/
def listRemoveExpiredStep (size : Nat) (now : Int)
    (acc : List (ExpiredElement V) × List (ExpiredElement V))
    (val : ExpiredElement V) :
    List (ExpiredElement V) × List (ExpiredElement V) :=
  if liveAfter val now then
    (acc.1 ++ [{ data := val.data, expiredAt := val.expiredAt }], acc.2)
  else
    (acc.1, chanPush size acc.2 val)

/-- List `removeExpired` (main.go lines 182-203): returns the new backing
slice and the channel contents after the sweep. -/
def listRemoveExpired (size : Nat) (data ch : List (ExpiredElement V))
    (now : Int) : List (ExpiredElement V) × List (ExpiredElement V) :=
  data.foldl (listRemoveExpiredStep size now) ([], ch)

/-!  Time Expired Map.  Go's `map[K]expiredElement[V]` is modelled as an
association list; `mapStore` models Go map assignment, which leaves exactly
one binding for the key. -/

/-- Lookup `m.data[key]`, as an `Option` (Go returns the zero value plus a
`found` flag). -/
def mapLookup [DecidableEq K] :
    List (K × ExpiredElement V) → K → Option (ExpiredElement V)
  | [], _ => none
  | p :: rest, k => if p.1 = k then some p.2 else mapLookup rest k

/-- Go map assignment `m.data[key] = e`: afterwards exactly one binding for
`key`, holding `e`; all other keys unchanged. -/
def mapStore [DecidableEq K] (m : List (K × ExpiredElement V)) (k : K)
    (e : ExpiredElement V) : List (K × ExpiredElement V) :=
  m.filter (fun p => decide (p.1 ≠ k)) ++ [(k, e)]

/-- Map `Add` (main.go lines 261-265): store the value with expiry
`now + dur` where `dur` is the container default duration. -/
def mapAdd [DecidableEq K] (m : List (K × ExpiredElement V)) (k : K) (v : V)
    (now dur : Int) : List (K × ExpiredElement V) :=
  mapStore m k { expiredAt := now + dur, data := v }

/-- Map `AddWithDuration` (main.go lines 268-272): same store with an explicit
per-entry duration. -/
def mapAddWithDuration [DecidableEq K] (m : List (K × ExpiredElement V))
    (k : K) (v : V) (now dur : Int) : List (K × ExpiredElement V) :=
  mapStore m k { expiredAt := now + dur, data := v }

/-- Map `Contains` (main.go lines 300-309).  For an absent key Go reads the
zero value, whose zero expiry either trips the `Before` test (returning
`false`) or falls through to `return found` with `found = false`; both paths
yield `false`, so the absent case is `false` unconditionally. -/
def mapContains [DecidableEq K] (m : List (K × ExpiredElement V)) (k : K)
    (now : Int) : Bool :=
  match mapLookup m k with
  | some e => if expiredBefore e now then false else true
  | none => false

/-- Map `Get` (main.go lines 275-286): a `Contains` pre-check, then the
`Before` re-check on the stored entry.  The `none` arm replays Go's zero-value
read (`var result V` is `default`); it is unreachable when the pre-check
passed. -/
def mapGet [DecidableEq K] [Inhabited V] (m : List (K × ExpiredElement V))
    (k : K) (now : Int) : Except GoErr V :=
  if ¬ mapContains m k now then Except.error GoErr.keyNotFound
  else
    match mapLookup m k with
    | some e =>
        if expiredBefore e now then Except.error GoErr.expired
        else Except.ok e.data
    | none =>
        if expiredBefore { data := (default : V), expiredAt := 0 } now then
          Except.error GoErr.expired
        else Except.ok (default : V)

/-- Map `Del` (main.go lines 289-297): a `Contains` pre-check, then
`delete(m.data, key)`. -/
def mapDel [DecidableEq K] (m : List (K × ExpiredElement V)) (k : K)
    (now : Int) : Except GoErr (List (K × ExpiredElement V)) :=
  if ¬ mapContains m k now then Except.error GoErr.keyNotFound
  else Except.ok (m.filter (fun p => decide (p.1 ≠ k)))

/-- Map `Size` (main.go lines 312-323): counts entries with
`d.expiredAt.After(now)`. -/
def mapSize (m : List (K × ExpiredElement V)) (now : Int) : Nat :=
  m.countP (fun p => liveAfter p.2 now)

/-- One iteration of the loop body of the map `removeExpired`
(main.go lines 364-378): an expired entry is pushed to the channel and its
key deleted; a live entry is left alone. -/
def mapRemoveExpiredStep [DecidableEq K] (size : Nat) (now : Int)
    (acc : List (K × ExpiredElement V) × List (ExpiredElement V))
    (p : K × ExpiredElement V) :
    List (K × ExpiredElement V) × List (ExpiredElement V) :=
  if expiredBefore p.2 now then
    (acc.1.filter (fun q => decide (q.1 ≠ p.1)), chanPush size acc.2 p.2)
  else acc

/-- Map `removeExpired` (main.go lines 361-379): returns the backing map and
the channel contents after the sweep. -/
def mapRemoveExpired [DecidableEq K] (size : Nat)
    (m : List (K × ExpiredElement V)) (ch : List (ExpiredElement V))
    (now : Int) : List (K × ExpiredElement V) × List (ExpiredElement V) :=
  m.foldl (mapRemoveExpiredStep size now) (m, ch)

/-!  Mutex discipline.  Each operation of the list container is transcribed as
the straight-line trace of its mutex calls and its accesses to the backing
storage `l.data`, in source order.  `accessesUnderLock evs d` checks, starting
from lock depth `d`, that every storage access happens at positive depth. -/

/-- Mutex and storage events of one operation, in program order. -/
inductive MuEvent where
  | lock
  | unlock
  | read
  | write
deriving DecidableEq, Repr

/-- Every `read`/`write` event in the trace happens while the lock depth is
positive. -/
def accessesUnderLock : List MuEvent → Nat → Bool
  | [], _ => true
  | MuEvent.lock :: rest, d => accessesUnderLock rest (d + 1)
  | MuEvent.unlock :: rest, d => accessesUnderLock rest (d - 1)
  | MuEvent.read :: rest, d => decide (0 < d) && accessesUnderLock rest d
  | MuEvent.write :: rest, d => decide (0 < d) && accessesUnderLock rest d

/-- List `Clear` (main.go lines 148-152): `l.mu.Lock()` then immediately
`l.mu.Unlock()` (no defer), then the write `l.data = ...`. -/
def listClearEvents : List MuEvent :=
  [MuEvent.lock, MuEvent.unlock, MuEvent.write]

/-- List `Del`, success path (main.go lines 122-131): the bounds check reads
`len(l.data)` before `l.mu.Lock()`; the slice rebuild reads and writes
`l.data` under the lock; the deferred unlock runs last. -/
def listDelEvents : List MuEvent :=
  [MuEvent.read, MuEvent.lock, MuEvent.read, MuEvent.write, MuEvent.unlock]

/-- List `removeExpired` (main.go lines 182-203): lock, scan (reads), final
write of `l.data`, deferred unlock. -/
def listRemoveExpiredEvents : List MuEvent :=
  [MuEvent.lock, MuEvent.read, MuEvent.write, MuEvent.unlock]

/-- List `Add` (main.go lines 85-89): lock, append (write), deferred unlock. -/
def listAddEvents : List MuEvent :=
  [MuEvent.lock, MuEvent.write, MuEvent.unlock]

/-- Map `Clear` (main.go lines 326-331): lock, deferred unlock around the
write. -/
def mapClearEvents : List MuEvent :=
  [MuEvent.lock, MuEvent.write, MuEvent.unlock]

/-!  Helper lemmas. -/

/-- The list `Get` can never produce the `IndexOutOfBound` error: its guard
`i < 0 && i >= len(l.data)` is unsatisfiable because a length is never
negative. -/
lemma listGet_ne_indexOutOfBound (data : List (ExpiredElement V)) (i now : Int) :
    listGet data i now ≠ GetOut.err GoErr.indexOutOfBound := by
  have hlen : (0 : Int) ≤ (data.length : Int) := Int.ofNat_nonneg _
  unfold listGet
  by_cases h1 : i < 0 ∧ (data.length : Int) ≤ i
  · omega
  · rw [if_neg h1]
    by_cases h2 : 0 ≤ i ∧ i < (data.length : Int)
    · rw [if_pos h2]
      cases hg : data[i.toNat]? with
      | none => simp
      | some e => by_cases hb : expiredBefore e now <;> simp [hb]
    · simp [h2]

/-- Characterization of a successful `Contains`: some entry is stored under
the key and its expiry has not passed. -/
lemma mapContains_eq_true [DecidableEq K] (m : List (K × ExpiredElement V))
    (k : K) (now : Int) :
    mapContains m k now = true ↔
      ∃ e, mapLookup m k = some e ∧ expiredBefore e now = false := by
  unfold mapContains
  cases h : mapLookup m k with
  | none => simp
  | some e =>
    by_cases hb : expiredBefore e now <;> simp [hb]

/-- Looking up `k` after appending the binding `(k, e)` behind bindings whose
keys all differ from `k` finds `e`. -/
lemma mapLookup_append_key [DecidableEq K] (k : K) (e : ExpiredElement V) :
    ∀ l : List (K × ExpiredElement V), (∀ p ∈ l, p.1 ≠ k) →
      mapLookup (l ++ [(k, e)]) k = some e := by
  intro l
  induction l with
  | nil => intro _; simp [mapLookup]
  | cons p rest ih =>
    intro h
    have hp : p.1 ≠ k := h p (List.mem_cons_self p rest)
    simp only [List.cons_append, mapLookup, if_neg hp]
    exact ih fun q hq => h q (List.mem_cons_of_mem p hq)

/-- Go map assignment followed by lookup of the same key yields the stored
entry. -/
lemma mapLookup_store [DecidableEq K] (m : List (K × ExpiredElement V))
    (k : K) (e : ExpiredElement V) :
    mapLookup (mapStore m k e) k = some e := by
  unfold mapStore
  apply mapLookup_append_key
  intro p hp
  have := List.of_mem_filter hp
  simpa using this

/-!  Claims. -/

/-- Claim C1: the spec says `Get(i)` fails with `IndexOutOfBound` whenever
`i` is outside `[0, len(storage))`.  The code instead joins the two bounds
with `&&` (`i < 0 && i >= len(l.data)`), a condition that can never hold, so
the guard is dead and the subsequent slice access `l.data[i]` panics on every
out-of-range index: `Get` never returns `IndexOutOfBound`.  Shown here: no
state, index and instant produce the error, and the two canonical
out-of-range calls (empty list at 0, negative index) end in a runtime panic. -/
theorem c1_get_out_of_bounds_panics :
    (∀ (V : Type) (data : List (ExpiredElement V)) (i now : Int),
      listGet data i now ≠ GetOut.err GoErr.indexOutOfBound) ∧
    listGet ([] : List (ExpiredElement Nat)) 0 0 = GetOut.crash ∧
    listGet [({ data := 7, expiredAt := 10 } : ExpiredElement Nat)] (-1) 0 =
      GetOut.crash := by
  refine ⟨fun V data i now => listGet_ne_indexOutOfBound data i now, ?_, ?_⟩ <;> decide

/-- Claim C9: the spec says every storage access of every operation and of
the sweep holds the container's lock for the whole operation.  The traces
transcribed from the source show two violations: list `Clear` unlocks
immediately (no `defer`) and then writes `l.data` unlocked, and list `Del`
reads `len(l.data)` in its bounds check before taking the lock.  The list
sweep, list `Add` and map `Clear` do respect the discipline. -/
theorem c9_lock_discipline_violated :
    accessesUnderLock listClearEvents 0 = false ∧
    accessesUnderLock listDelEvents 0 = false ∧
    accessesUnderLock listRemoveExpiredEvents 0 = true ∧
    accessesUnderLock listAddEvents 0 = true ∧
    accessesUnderLock mapClearEvents 0 = true := by
  decide

/-- Claim C10: evaluated at a single instant, the map `Get` never returns the
`Expired` error — the `Contains` pre-check already reported expired entries
as absent — so the only outcomes are `KeyNotFound` or the value. -/
theorem c10_mapGet_expired_unreachable [DecidableEq K] [Inhabited V]
    (m : List (K × ExpiredElement V)) (k : K) (now : Int) :
    mapGet m k now ≠ Except.error GoErr.expired ∧
    (mapGet m k now = Except.error GoErr.keyNotFound ∨
      ∃ v, mapGet m k now = Except.ok v) := by
  unfold mapGet
  by_cases hc : mapContains m k now = true
  · obtain ⟨e, hl, hb⟩ := (mapContains_eq_true m k now).mp hc
    simp [hc, hl, hb]
  · simp [hc]

theorem c10_witness :
    mapGet ([(1, { data := 5, expiredAt := 9 })] : List (Nat × ExpiredElement Nat))
        1 4 ≠ Except.error GoErr.expired :=
  (c10_mapGet_expired_unreachable [(1, { data := 5, expiredAt := 9 })] 1 4).1

/-- Claim C4: at a single instant, map `Get(key)` fails with `KeyNotFound`
both when the key is absent from storage and when the stored entry's expiry
has passed; otherwise it returns the stored value. -/
theorem c4_mapGet_keyNotFound_or_value [DecidableEq K] [Inhabited V]
    (m : List (K × ExpiredElement V)) (k : K) (now : Int) :
    (mapLookup m k = none →
      mapGet m k now = Except.error GoErr.keyNotFound) ∧
    (∀ e, mapLookup m k = some e → expiredBefore e now = true →
      mapGet m k now = Except.error GoErr.keyNotFound) ∧
    (∀ e, mapLookup m k = some e → expiredBefore e now = false →
      mapGet m k now = Except.ok e.data) := by
  refine ⟨?_, ?_, ?_⟩
  · intro h
    simp [mapGet, mapContains, h]
  · intro e hl hb
    simp [mapGet, mapContains, hl, hb]
  · intro e hl hb
    simp [mapGet, mapContains, hl, hb]

theorem c4_witness :
    mapGet ([] : List (Nat × ExpiredElement Nat)) 0 5 =
        Except.error GoErr.keyNotFound ∧
    mapGet ([(0, { data := 7, expiredAt := 1 })] : List (Nat × ExpiredElement Nat))
        0 5 = Except.error GoErr.keyNotFound ∧
    mapGet ([(0, { data := 7, expiredAt := 9 })] : List (Nat × ExpiredElement Nat))
        0 5 = Except.ok 7 :=
  ⟨(c4_mapGet_keyNotFound_or_value [] 0 5).1 rfl,
   (c4_mapGet_keyNotFound_or_value [(0, { data := 7, expiredAt := 1 })] 0 5).2.1
     { data := 7, expiredAt := 1 } rfl (by decide),
   (c4_mapGet_keyNotFound_or_value [(0, { data := 7, expiredAt := 9 })] 0 5).2.2
     { data := 7, expiredAt := 9 } rfl (by decide)⟩

/-- A successful indexed read: when the index is in range, the slot holds `e`
and `e` is not expired, `Get` returns the stored value. -/
lemma listGet_ok (data : List (ExpiredElement V)) (i now : Int)
    (e : ExpiredElement V) (h0 : 0 ≤ i) (h1 : i < (data.length : Int))
    (hg : data[i.toNat]? = some e) (hb : expiredBefore e now = false) :
    listGet data i now = GetOut.ok e.data := by
  unfold listGet
  rw [if_neg (by omega), if_pos ⟨h0, h1⟩]
  simp [hg, hb]

/-- Claim C6: visibility is monotone in time.  With the state fixed, once the
predicate used by `Size` stops counting an entry it never counts it again;
the predicate used by `Get`/`GetAll`/the map sweep likewise never flips back;
`Contains` never turns true again; `Size` itself never grows; and a value
absent from `GetAll` at the earlier instant is absent at the later one. -/
theorem c6_expiry_monotonicity [DecidableEq K] (e : ExpiredElement V)
    (data : List (ExpiredElement V)) (m : List (K × ExpiredElement V)) (k : K)
    (t1 t2 : Int) (h12 : t1 ≤ t2) :
    (liveAfter e t1 = false → liveAfter e t2 = false) ∧
    (expiredBefore e t1 = true → expiredBefore e t2 = true) ∧
    (mapContains m k t1 = false → mapContains m k t2 = false) ∧
    listSize data t2 ≤ listSize data t1 ∧
    (∀ x, x ∈ listGetAll data t2 → x ∈ listGetAll data t1) := by
  refine ⟨?_, ?_, ?_, ?_, ?_⟩
  · intro h
    simp only [liveAfter, decide_eq_false_iff_not] at h ⊢
    omega
  · intro h
    simp only [expiredBefore, decide_eq_true_eq] at h ⊢
    omega
  · intro h
    unfold mapContains at h ⊢
    cases hl : mapLookup m k with
    | none => rfl
    | some e0 =>
      rw [hl] at h
      by_cases hb : expiredBefore e0 t1
      · have hb2 : expiredBefore e0 t2 = true := by
          simp only [expiredBefore, decide_eq_true_eq] at hb ⊢
          omega
        simp [hb2]
      · simp [hb] at h
  · unfold listSize
    apply List.countP_mono_left
    intro a _ ha
    simp only [liveAfter, decide_eq_true_eq] at ha ⊢
    omega
  · intro x hx
    unfold listGetAll at hx ⊢
    rw [List.mem_filterMap] at hx ⊢
    obtain ⟨a, hmem, hfa⟩ := hx
    refine ⟨a, hmem, ?_⟩
    cases hb2 : expiredBefore a t2 with
    | true => simp [hb2] at hfa
    | false =>
      have hb1 : expiredBefore a t1 = false := by
        simp only [expiredBefore, decide_eq_false_iff_not] at hb2 ⊢
        omega
      simp only [hb2, Bool.false_eq_true, if_false] at hfa
      simp [hb1, hfa]

theorem c6_witness :
    (liveAfter ({ data := 0, expiredAt := 1 } : ExpiredElement Nat) 3 = false) ∧
    (expiredBefore ({ data := 0, expiredAt := 1 } : ExpiredElement Nat) 3 = true) ∧
    (mapContains ([] : List (Nat × ExpiredElement Nat)) 0 3 = false) ∧
    listSize [({ data := 0, expiredAt := 1 } : ExpiredElement Nat)] 3 ≤
      listSize [({ data := 0, expiredAt := 1 } : ExpiredElement Nat)] 2 :=
  have h := c6_expiry_monotonicity (K := Nat)
    ({ data := 0, expiredAt := 1 } : ExpiredElement Nat)
    [{ data := 0, expiredAt := 1 }] [] 0 2 3 (by decide)
  ⟨h.1 (by decide), h.2.1 (by decide), h.2.2.1 (by decide), h.2.2.2.1⟩

/-- Claim C2 counterexample: an entry whose expiry equals the current instant
is claimed to be counted by `Size`, but `Size` tests `expiredAt.After(now)`,
which is strict, so the count is 0, not 1. -/
theorem c2_counterexample :
    ¬ listSize [({ data := 3, expiredAt := 5 } : ExpiredElement Nat)] 5 = 1 := by
  decide

/-- Claim C2 as amended: at `expiresAt == now`, `Get` still returns the value,
`GetAll` still lists it, map `Contains`/`Get` still report it, and the map
sweep retains it (all of these test the strict `Before`); but `Size` of both
containers tests the strict `After` and does not count it, and the list sweep
drops it. -/
theorem c2_tie_semantics {V K : Type} [DecidableEq K] [Inhabited V]
    (v : V) (k : K) (now : Int) (size : Nat) :
    listGet [{ data := v, expiredAt := now }] 0 now = GetOut.ok v ∧
    listGetAll [{ data := v, expiredAt := now }] now = [v] ∧
    mapContains [(k, { data := v, expiredAt := now })] k now = true ∧
    mapGet [(k, { data := v, expiredAt := now })] k now = Except.ok v ∧
    listSize [({ data := v, expiredAt := now } : ExpiredElement V)] now = 0 ∧
    mapSize [(k, ({ data := v, expiredAt := now } : ExpiredElement V))] now = 0 ∧
    (listRemoveExpired size [{ data := v, expiredAt := now }] [] now).1 = [] ∧
    (mapRemoveExpired size [(k, { data := v, expiredAt := now })] [] now).1 =
      [(k, { data := v, expiredAt := now })] := by
  have hb : expiredBefore ({ data := v, expiredAt := now } : ExpiredElement V)
      now = false := by
    simp [expiredBefore]
  have hl : liveAfter ({ data := v, expiredAt := now } : ExpiredElement V)
      now = false := by
    simp [liveAfter]
  refine ⟨?_, ?_, ?_, ?_, ?_, ?_, ?_, ?_⟩
  · exact listGet_ok _ 0 now _ (by omega) (by simp) (by simp) hb
  · simp [listGetAll, hb]
  · simp [mapContains, mapLookup, hb]
  · simp [mapGet, mapContains, mapLookup, hb]
  · simp [listSize, hl]
  · simp [mapSize, hl]
  · simp [listRemoveExpired, listRemoveExpiredStep, hl]
  · simp [mapRemoveExpired, mapRemoveExpiredStep, hb]

/-- Claim C7: `Add(v)` followed immediately (same instant, positive default
duration, no sweep in between) by `Get` at the new entry's address, by
`GetAll`, or by map `Get` at the key, returns `v` unchanged. -/
theorem c7_round_trip {V K : Type} [DecidableEq K] [Inhabited V]
    (data : List (ExpiredElement V)) (m : List (K × ExpiredElement V))
    (v : V) (k : K) (now dur : Int) (hdur : 0 < dur) :
    listGet (listAdd data v now dur) (data.length : Int) now = GetOut.ok v ∧
    v ∈ listGetAll (listAdd data v now dur) now ∧
    mapGet (mapAdd m k v now dur) k now = Except.ok v := by
  have hb : expiredBefore ({ expiredAt := now + dur, data := v } :
      ExpiredElement V) now = false := by
    simp only [expiredBefore, decide_eq_false_iff_not]
    omega
  refine ⟨?_, ?_, ?_⟩
  · apply listGet_ok _ _ _ { expiredAt := now + dur, data := v } (by omega)
      (by simp [listAdd]) ?_ hb
    have ht : ((data.length : Int)).toNat = data.length := by simp
    rw [ht]
    unfold listAdd
    exact List.getElem?_concat_length data _
  · unfold listGetAll listAdd
    rw [List.filterMap_append]
    apply List.mem_append_right
    simp [hb]
  · have hl := mapLookup_store m k { expiredAt := now + dur, data := v }
    have hc : mapContains (mapStore m k { expiredAt := now + dur, data := v })
        k now = true :=
      (mapContains_eq_true _ _ _).mpr ⟨_, hl, hb⟩
    show mapGet (mapStore m k { expiredAt := now + dur, data := v }) k now =
      Except.ok v
    simp [mapGet, hc, hl, hb]

theorem c7_witness :
    listGet (listAdd ([] : List (ExpiredElement Nat)) 42 0 5)
        ((([] : List (ExpiredElement Nat)).length : Int)) 0 = GetOut.ok 42 ∧
    42 ∈ listGetAll (listAdd ([] : List (ExpiredElement Nat)) 42 0 5) 0 ∧
    mapGet (mapAdd ([] : List (Nat × ExpiredElement Nat)) 0 42 0 5) 0 0 =
      Except.ok 42 :=
  c7_round_trip [] [] 42 0 0 5 (by decide)

/-- Claim C8: inserting `k` twice leaves exactly one binding for `k`, holding
`v2` with the second expiry; starting from the empty map, `Size` then reports
1, not 2. -/
theorem c8_map_add_overwrites [DecidableEq K]
    (m : List (K × ExpiredElement V)) (k : K) (v1 v2 : V) (t1 t2 dur : Int) :
    (mapAdd (mapAdd m k v1 t1 dur) k v2 t2 dur).countP
      (fun p => decide (p.1 = k)) = 1 ∧
    mapLookup (mapAdd (mapAdd m k v1 t1 dur) k v2 t2 dur) k =
      some { data := v2, expiredAt := t2 + dur } ∧
    (0 < dur →
      mapSize (mapAdd (mapAdd ([] : List (K × ExpiredElement V)) k v1 t1 dur)
        k v2 t2 dur) t2 = 1) := by
  refine ⟨?_, mapLookup_store _ _ _, ?_⟩
  · show ((mapAdd m k v1 t1 dur).filter
        (fun (p : K × ExpiredElement V) => decide (p.1 ≠ k)) ++
      [(k, ({ data := v2, expiredAt := t2 + dur } : ExpiredElement V))]).countP
        (fun (p : K × ExpiredElement V) => decide (p.1 = k)) = 1
    rw [List.countP_append]
    have h0 : ((mapAdd m k v1 t1 dur).filter
        (fun p => decide (p.1 ≠ k))).countP (fun p => decide (p.1 = k)) = 0 := by
      rw [List.countP_eq_zero]
      intro a ha
      have := List.of_mem_filter ha
      simp only [decide_eq_true_eq] at this
      simp [this]
    rw [h0]
    simp [List.countP_cons]
  · intro hd
    have hlive : liveAfter ({ expiredAt := t2 + dur, data := v2 } :
        ExpiredElement V) t2 = true := by
      simp only [liveAfter, decide_eq_true_eq]
      omega
    simp [mapAdd, mapStore, mapSize, List.countP_cons, hlive]

theorem c8_witness :
    mapSize (mapAdd (mapAdd ([] : List (Nat × ExpiredElement Nat)) 1 10 0 5)
        1 20 0 5) 0 = 1 ∧
    mapLookup (mapAdd (mapAdd ([] : List (Nat × ExpiredElement Nat)) 1 10 0 5)
        1 20 0 5) 1 = some { data := 20, expiredAt := 0 + 5 } :=
  have h := c8_map_add_overwrites ([] : List (Nat × ExpiredElement Nat))
    1 10 20 0 0 5
  ⟨h.2.2 (by decide), h.2.1⟩

/-- Claim C5: on a sequence whose entries are all live, `Del(i)` succeeds for
`i + 1 < N`, the following `Get(i)` returns exactly what `Get(i+1)` returned
before the deletion, and `Size` decreases by exactly 1. -/
theorem c5_del_shifts_indices {V : Type} (data : List (ExpiredElement V))
    (now : Int) (i : Nat)
    (hlive : ∀ e ∈ data, liveAfter e now = true)
    (hi : i + 1 < data.length) :
    ∃ d2, listDel data (i : Int) = Except.ok d2 ∧
      (∃ v, listGet d2 (i : Int) now = GetOut.ok v ∧
        listGet data ((i : Int) + 1) now = GetOut.ok v) ∧
      listSize d2 now + 1 = listSize data now := by
  have htn : ((i : Int)).toNat = i := Int.toNat_natCast i
  have hmem : data[i + 1] ∈ data := List.getElem?_mem (List.getElem?_eq_getElem hi)
  have hlv : liveAfter data[i + 1] now = true := hlive _ hmem
  have hbv : expiredBefore data[i + 1] now = false := by
    simp only [liveAfter, decide_eq_true_eq] at hlv
    simp only [expiredBefore, decide_eq_false_iff_not]
    omega
  have htake : (data.take i).length = i := List.length_take_of_le (by omega)
  have hd2len : (data.take i ++ data.drop (i + 1)).length = data.length - 1 := by
    rw [List.length_append, htake, List.length_drop]
    omega
  refine ⟨data.take i ++ data.drop (i + 1), ?_, ⟨(data[i + 1]).data, ?_, ?_⟩, ?_⟩
  · unfold listDel
    rw [if_neg (by omega), htn]
  · apply listGet_ok _ _ _ data[i + 1] (by omega) (by omega) ?_ hbv
    rw [htn, List.getElem?_append_right (le_of_eq htake), htake, Nat.sub_self,
      List.drop_eq_getElem_cons hi, List.getElem?_cons_zero]
  · apply listGet_ok _ _ _ data[i + 1] (by omega) (by omega) ?_ hbv
    have ht1 : ((i : Int) + 1).toNat = i + 1 := by omega
    rw [ht1]
    exact List.getElem?_eq_getElem hi
  · have hall : listSize data now = data.length :=
      List.countP_eq_length.mpr fun a ha => hlive a ha
    have hall2 : listSize (data.take i ++ data.drop (i + 1)) now =
        (data.take i ++ data.drop (i + 1)).length :=
      List.countP_eq_length.mpr fun a ha => by
        rcases List.mem_append.mp ha with h | h
        · exact hlive a (List.mem_of_mem_take h)
        · exact hlive a (List.mem_of_mem_drop h)
    rw [hall, hall2, hd2len]
    omega

theorem c5_witness :
    ∃ d2, listDel
        [({ data := 10, expiredAt := 9 } : ExpiredElement Nat),
         { data := 20, expiredAt := 9 },
         { data := 30, expiredAt := 9 }] ((0 : Nat) : Int) = Except.ok d2 ∧
      (∃ v, listGet d2 ((0 : Nat) : Int) 4 = GetOut.ok v ∧
        listGet [({ data := 10, expiredAt := 9 } : ExpiredElement Nat),
          { data := 20, expiredAt := 9 },
          { data := 30, expiredAt := 9 }] (((0 : Nat) : Int) + 1) 4 =
          GetOut.ok v) ∧
      listSize d2 4 + 1 =
        listSize [({ data := 10, expiredAt := 9 } : ExpiredElement Nat),
          { data := 20, expiredAt := 9 }, { data := 30, expiredAt := 9 }] 4 :=
  c5_del_shifts_indices
    [{ data := 10, expiredAt := 9 }, { data := 20, expiredAt := 9 },
     { data := 30, expiredAt := 9 }] 4 0 (by decide) (by decide)

lemma chanPushAll_cons (size : Nat) (ch : List (ExpiredElement V))
    (e : ExpiredElement V) (es : List (ExpiredElement V)) :
    chanPushAll size ch (e :: es) = chanPushAll size (chanPush size ch e) es :=
  rfl

/-- Sliding-window behaviour of the lossy channel: pushing `es` onto a buffer
that is within capacity leaves the last `size` elements of the combined
stream. -/
lemma chanPushAll_window (size : Nat) (hs : 0 < size) :
    ∀ (es ch : List (ExpiredElement V)), ch.length ≤ size →
      chanPushAll size ch es = (ch ++ es).drop ((ch ++ es).length - size) := by
  intro es
  induction es with
  | nil =>
    intro ch hch
    rw [List.append_nil, Nat.sub_eq_zero_of_le hch, List.drop_zero]
    rfl
  | cons e es ih =>
    intro ch hch
    rw [chanPushAll_cons]
    by_cases h1 : size ≤ ch.length
    · have hcheq : ch.length = size := le_antisymm hch h1
      cases ch with
      | nil => simp at hcheq; omega
      | cons c cs =>
        have hcs : cs.length + 1 = size := by simpa using hcheq
        have hpush : chanPush size (c :: cs) e = cs ++ [e] := by
          unfold chanPush
          rw [if_pos hs, if_pos h1]
          rfl
        rw [hpush, ih (cs ++ [e]) (by simp; omega)]
        rw [show (cs ++ [e]) ++ es = cs ++ e :: es by simp]
        rw [show (c :: cs) ++ e :: es = c :: (cs ++ e :: es) from rfl]
        have ha : (cs ++ e :: es).length - size = es.length := by
          simp
          omega
        have hb : (c :: (cs ++ e :: es)).length - size = es.length + 1 := by
          simp
          omega
        rw [ha, hb, List.drop_succ_cons]
    · have hpush : chanPush size ch e = ch ++ [e] := by
        unfold chanPush
        rw [if_pos hs, if_neg h1]
      rw [hpush, ih (ch ++ [e]) (by simp; omega)]
      rw [show (ch ++ [e]) ++ es = ch ++ e :: es by simp]

/-- The list sweep, as a fold, splits into the kept (live) entries in order
and the dropped (expired) entries pushed onto the channel in drop order. -/
lemma listRemoveExpired_fold (size : Nat) (now : Int) :
    ∀ (data acc ch : List (ExpiredElement V)),
      data.foldl (listRemoveExpiredStep size now) (acc, ch) =
        (acc ++ data.filter (fun v => liveAfter v now),
         chanPushAll size ch (data.filter (fun v => ! liveAfter v now))) := by
  intro data
  induction data with
  | nil =>
    intro acc ch
    simp [chanPushAll]
  | cons v rest ih =>
    intro acc ch
    rw [List.foldl_cons]
    cases hv : liveAfter v now with
    | true =>
      have hstep : listRemoveExpiredStep size now (acc, ch) v =
          (acc ++ [{ data := v.data, expiredAt := v.expiredAt }], ch) := by
        unfold listRemoveExpiredStep
        rw [hv]
        simp
      rw [hstep, ih]
      simp [List.filter_cons, hv]
    | false =>
      have hstep : listRemoveExpiredStep size now (acc, ch) v =
          (acc, chanPush size ch v) := by
        unfold listRemoveExpiredStep
        rw [hv]
        simp
      rw [hstep, ih]
      simp [List.filter_cons, hv, chanPushAll_cons]

/-- Claim C3: with channel capacity `size > 0` and a sweep dropping more than
`size` expired entries into an unconsumed channel, the channel afterwards
holds exactly the `size` most recently dropped entries, in drop order, the
oldest having been discarded first; the buffer never exceeds its capacity, so
no push blocks. -/
theorem c3_bounded_notification {V : Type} (size : Nat)
    (data : List (ExpiredElement V)) (now : Int) (hs : 0 < size)
    (hn : size < (data.filter (fun v => ! liveAfter v now)).length) :
    (listRemoveExpired size data [] now).2 =
      (data.filter (fun v => ! liveAfter v now)).drop
        ((data.filter (fun v => ! liveAfter v now)).length - size) ∧
    (listRemoveExpired size data [] now).2.length = size ∧
    (listRemoveExpired size data [] now).1 =
      data.filter (fun v => liveAfter v now) ∧
    (∀ es : List (ExpiredElement V), (chanPushAll size [] es).length ≤ size) := by
  have hwin : ∀ es : List (ExpiredElement V),
      chanPushAll size ([] : List (ExpiredElement V)) es =
        es.drop (es.length - size) := by
    intro es
    have h := chanPushAll_window size hs es [] (by simp)
    simpa using h
  have hfold := listRemoveExpired_fold size now data [] []
  refine ⟨?_, ?_, ?_, ?_⟩
  · show (data.foldl (listRemoveExpiredStep size now) ([], [])).2 = _
    rw [hfold]
    exact hwin _
  · show (data.foldl (listRemoveExpiredStep size now) ([], [])).2.length = _
    rw [hfold]
    show (chanPushAll size [] _).length = size
    rw [hwin, List.length_drop]
    omega
  · show (data.foldl (listRemoveExpiredStep size now) ([], [])).1 = _
    rw [hfold]
    simp
  · intro es
    rw [hwin, List.length_drop]
    omega

theorem c3_witness :
    (listRemoveExpired 1
      [({ data := 1, expiredAt := 0 } : ExpiredElement Nat),
       { data := 2, expiredAt := 0 }] [] 5).2 = [{ data := 2, expiredAt := 0 }] ∧
    (listRemoveExpired 1
      [({ data := 1, expiredAt := 0 } : ExpiredElement Nat),
       { data := 2, expiredAt := 0 }] [] 5).1 = [] :=
  have h := c3_bounded_notification 1
    [({ data := 1, expiredAt := 0 } : ExpiredElement Nat),
     { data := 2, expiredAt := 0 }] 5 (by decide) (by decide)
  ⟨h.1.trans (by decide), h.2.2.1.trans (by decide)⟩

end GoCollections
